import Mathlib

/-!
# csnake: the game core of `src/main.cpp`

A shallow embedding of the game-state model of the Snake game (`Board`, `Game`,
`Game::change_direction`, `Game::move_snake`, `Board::generate_food`) and of the
part of the main loop that drives it, followed by theorems about it.

Modelling conventions.

* `Point` holds two `float`s in the source; every value the program ever stores in
  one is a small integer (a literal, a loop index, or a neighbour of one of those),
  so a coordinate is an `Int` here and the implicit `float → int` conversion at
  `getValue` / `setValue` is the identity.
* `std::optional<Tie> board[27][27]` is a total map from index pairs to cells; the
  program only ever touches the indices `0 ≤ i, j < 27`. A conclusion about every
  cell is proved for all index pairs, hence for those of the array; a hypothesis
  about every cell is only assumed for the index pairs of the array.
* The random index drawn in `generate_food` (`std::uniform_int_distribution` over
  `0 .. empty.size() - 1`) is a parameter `r : Nat`, used as `r % empty.size()`:
  every `r` is a possible outcome and every possible outcome is some `r`.
* `assert(!snake.empty())` aborts the program; `move_snake` returns `none` there.
-/

namespace Csnake

/-- Source line 10: `const int MATRIX_SIZE = 27;` -/
def MATRIX_SIZE : Nat := 27

/-- Source line 13: `enum class Direction`. -/
inductive Direction where
  | UP
  | DOWN
  | LEFT
  | RIGHT
  deriving DecidableEq, Repr

/-- Source line 15: `enum class Tie`. A cell is `std::optional<Tie>`: `none` is an
empty cell, `some Tie.Food` food, `some Tie.Particle` a snake segment. -/
inductive Tie where
  | Food
  | Particle
  deriving DecidableEq, Repr

/-- Source lines 17-31: `struct Point` (the `draw` method is rendering only). -/
structure Point where
  x : Int
  y : Int
  deriving DecidableEq, Repr

/-- Source line 34: the array `board[MATRIX_SIZE][MATRIX_SIZE]`, indexed `board[i][j]`. -/
abbrev Board := Int → Int → Option Tie

/-- Source lines 37-49: `Board::Board()`. -/
def Board.init : Board := fun i j =>
  if i = 3 ∧ j = 3 then some Tie.Food
  else if (i = 12 ∨ i = 13 ∨ i = 14) ∧ j = 12 then some Tie.Particle
  else none

/-- Source lines 81-83: `Board::getValue`. -/
def Board.getValue (b : Board) (row col : Int) : Option Tie := b row col

/-- Source lines 85-87: `Board::setValue`. -/
def Board.setValue (b : Board) (row col : Int) (tie : Option Tie) : Board := fun i j =>
  if i = row ∧ j = col then tie else b i j

/-- Source lines 52-60: the vector `empty` built by the two nested loops of
`generate_food`, in the order of the pushes. -/
def Board.emptyCells (b : Board) : List Point :=
  (List.range MATRIX_SIZE).flatMap fun (i : Nat) =>
    (List.range MATRIX_SIZE).filterMap fun (j : Nat) =>
      if b (i : Int) (j : Int) = none then some (Point.mk (i : Int) (j : Int)) else none

/-- Source lines 51-79: `Board::generate_food`; `r` is the outcome of the random draw.
Returns the optional position and the board after the call. -/
def Board.generate_food (b : Board) (r : Nat) : Option Point × Board :=
  let empty := b.emptyCells
  if h : empty = [] then (none, b)
  else
    let randomIndex := r % empty.length
    let p := empty.get ⟨randomIndex, Nat.mod_lt r (List.length_pos.mpr h)⟩
    (some p, b.setValue p.x p.y (some Tie.Food))

/-- Source lines 90-98: the fields of `class Game`. -/
structure Game where
  board : Board
  food : Point
  snake : List Point
  direction : Direction
  is_finished : Bool
  is_paused : Bool

/-- Source lines 100-102: `Game::Game()`. -/
def Game.init : Game :=
  { board := Board.init
    food := Point.mk 3 3
    snake := [Point.mk 12 12, Point.mk 13 12, Point.mk 14 12]
    direction := Direction.LEFT
    is_finished := false
    is_paused := false }

/-- Source lines 104-119: `Game::change_direction`. -/
def Game.change_direction (g : Game) (pressed : Direction) : Game :=
  match g.direction with
  | Direction.UP | Direction.DOWN =>
    if pressed = Direction.LEFT ∨ pressed = Direction.RIGHT then
      { g with direction := pressed }
    else g
  | Direction.RIGHT | Direction.LEFT =>
    if pressed = Direction.UP ∨ pressed = Direction.DOWN then
      { g with direction := pressed }
    else g

/-- Source lines 136-173: the `switch (direction)` of `move_snake` that computes
`new_head` from `old_head`. -/
def new_head (direction : Direction) (old_head : Point) : Point :=
  match direction with
  | Direction.UP =>
    { x := old_head.x
      y := if old_head.y = 0 then (MATRIX_SIZE : Int) - 1 else old_head.y - 1 }
  | Direction.DOWN =>
    { x := old_head.x
      y := if old_head.y = (MATRIX_SIZE : Int) - 1 then 0 else old_head.y + 1 }
  | Direction.RIGHT =>
    { y := old_head.y
      x := if old_head.x = (MATRIX_SIZE : Int) - 1 then 0 else old_head.x + 1 }
  | Direction.LEFT =>
    { y := old_head.y
      x := if old_head.x = 0 then (MATRIX_SIZE : Int) - 1 else old_head.x - 1 }

/-- Source lines 177-185: the `if (tie == Tie::Food)` block of `move_snake`. -/
def Game.eat (g : Game) (r : Nat) : Game :=
  match g.board.generate_food r with
  | (none, b) => { g with board := b, is_finished := true }
  | (some new_food, b) => { g with board := b, food := new_food }

/-- Source lines 129-201: `Game::move_snake`; `r` is the outcome of the random draw
made by `generate_food` if it is called. `none` is the failed assertion of line 130. -/
def Game.move_snake (g : Game) (r : Nat) : Option Game :=
  match g.snake with
  | [] => none
  | old_head :: rest =>
    let tail := (old_head :: rest).getLast (List.cons_ne_nil old_head rest)
    let nh := new_head g.direction old_head
    let tie := g.board.getValue nh.x nh.y
    let g1 := if tie = some Tie.Food then g.eat r else g
    if tie = some Tie.Particle then
      some { g1 with is_finished := true }
    else
      let snake1 := if tie ≠ some Tie.Food then (old_head :: rest).dropLast else old_head :: rest
      let snake2 := nh :: snake1
      let board1 := g1.board.setValue tail.x tail.y none
      let board2 := board1.setValue nh.x nh.y (some Tie.Particle)
      some { g1 with snake := snake2, board := board2 }

/-- Source lines 270-272: the pause key, `game.is_paused = !game.is_paused`. -/
def Game.toggle_pause (g : Game) : Game :=
  { g with is_paused := !g.is_paused }

/-- Source lines 285-287: the advance of one iteration of the main loop,
`if (!game.is_paused) game.move_snake();`. -/
def Game.tick (g : Game) (r : Nat) : Option Game :=
  if !g.is_paused then g.move_snake r else some g

/-- One call made by the main loop on the game. -/
inductive Action where
  | turn (pressed : Direction)
  | pause
  | move (r : Nat)
  deriving DecidableEq, Repr

/-- The effect of one call. -/
def Game.act (g : Game) : Action → Option Game
  | Action.turn pressed => some (g.change_direction pressed)
  | Action.pause => some g.toggle_pause
  | Action.move r => g.move_snake r

/-- The effect of a finite sequence of calls, in order. -/
def Game.run (g : Game) : List Action → Option Game
  | [] => some g
  | a :: as => (g.act a).bind fun g1 => g1.run as

/-- The states reachable from the initial `Game` by a finite sequence of
`change_direction` calls, pause toggles and `move_snake` calls, with any outcomes of
the random draws. -/
inductive Reachable : Game → Prop where
  | init : Reachable Game.init
  | turn {g : Game} (pressed : Direction) : Reachable g → Reachable (g.change_direction pressed)
  | pause {g : Game} : Reachable g → Reachable g.toggle_pause
  | move {g g1 : Game} (r : Nat) : Reachable g → g.move_snake r = some g1 → Reachable g1

/-- A position inside the `MATRIX_SIZE` by `MATRIX_SIZE` array: both coordinates are
valid indices of `board`. -/
def InRange (p : Point) : Prop :=
  0 ≤ p.x ∧ p.x < (MATRIX_SIZE : Int) ∧ 0 ≤ p.y ∧ p.y < (MATRIX_SIZE : Int)

/-- The facts that every call of the game preserves. The last segment of the snake
is deliberately left out of `body`: after a move onto food its cell is empty in the
grid although the segment is still in the snake. -/
structure Inv (g : Game) : Prop where
  nonempty : g.snake ≠ []
  nodup : g.snake.Nodup
  body : ∀ p ∈ g.snake.dropLast, g.board p.x p.y = some Tie.Particle
  tail_not_food : ∀ p ∈ g.snake.getLast?, g.board p.x p.y ≠ some Tie.Food
  sound : ∀ i j, g.board i j = some Tie.Particle → Point.mk i j ∈ g.snake
  one_food : ∀ i j k l, g.board i j = some Tie.Food → g.board k l = some Tie.Food → i = k ∧ j = l
  in_range : ∀ p ∈ g.snake, InRange p
  food_in_range : InRange g.food

/-- The axis of a heading: `true` for `LEFT` and `RIGHT`, `false` for `UP` and `DOWN`. -/
def Direction.horizontal : Direction → Bool
  | Direction.LEFT => true
  | Direction.RIGHT => true
  | Direction.UP => false
  | Direction.DOWN => false

/-- The heading opposite to a heading. -/
def Direction.opposite : Direction → Direction
  | Direction.LEFT => Direction.RIGHT
  | Direction.RIGHT => Direction.LEFT
  | Direction.UP => Direction.DOWN
  | Direction.DOWN => Direction.UP

/-- Two headings are orthogonal when they lie on different axes. -/
def Direction.orthogonal (a b : Direction) : Prop := a.horizontal ≠ b.horizontal

/-- The initial game turned to head `RIGHT`: the cell ahead of the head `(12,12)` is
the second segment `(13,12)`. -/
def Game.facingBody : Game := { Game.init with direction := Direction.RIGHT }

/-- The initial game with the food at `(11,12)`, the cell ahead of the head, instead
of `(3,3)`. -/
def Game.facingFood : Game :=
  { Game.init with
    board := fun i j =>
      if i = 11 ∧ j = 12 then some Tie.Food
      else if (i = 12 ∨ i = 13 ∨ i = 14) ∧ j = 12 then some Tie.Particle
      else none
    food := Point.mk 11 12 }

/-- The calls that bring the initial snake next to the food at `(3,3)`: nine moves
to the left, a turn up, eight moves up. No food is eaten on the way, so the random
draw is never made. -/
def toFood : List Action :=
  List.replicate 9 (Action.move 0) ++ [Action.turn Direction.UP] ++
    List.replicate 8 (Action.move 0)

/-- A grid without an empty cell: food at `(11,12)`, every other cell a snake segment. -/
def Board.full : Board := fun i j =>
  if i = 11 ∧ j = 12 then some Tie.Food else some Tie.Particle

/-- The initial game on the grid `Board.full`: the cell ahead of the head is food and
no cell is empty. -/
def Game.fullBoard : Game := { Game.init with board := Board.full, food := Point.mk 11 12 }

/-- The calls that curl the snake around the food at `(3,3)` and eat it: from the
state reached by `toFood`, right to `(4,4)`, up to `(4,3)`, left onto the food, then a
turn down. The snake is then `[(3,3),(4,3),(4,4),(3,4)]`, heading `DOWN`, and the cell
ahead of the head is the cell `(3,4)` of its last segment. -/
def toTail : List Action :=
  toFood ++ [Action.turn Direction.RIGHT, Action.move 0, Action.turn Direction.UP,
    Action.move 0, Action.turn Direction.LEFT, Action.move 0, Action.turn Direction.DOWN]

/-- Toroidal neighbours: two positions that agree in one coordinate and differ by
exactly one modulo `MATRIX_SIZE` in the other. -/
def Neighbour (p q : Point) : Prop :=
  (p.x = q.x ∧ ((p.y - q.y) % (MATRIX_SIZE : Int) = 1 ∨ (q.y - p.y) % (MATRIX_SIZE : Int) = 1)) ∨
  (p.y = q.y ∧ ((p.x - q.x) % (MATRIX_SIZE : Int) = 1 ∨ (q.x - p.x) % (MATRIX_SIZE : Int) = 1))

/-- A sequence of positions in which each element is a toroidal neighbour of the
next one. -/
def Linked : List Point → Prop
  | [] => True
  | [_] => True
  | p :: q :: rest => Neighbour p q ∧ Linked (q :: rest)

/-- The runs of `change_direction` and `move_snake` calls from the initial `Game` in
which, at every point of the run, at most one `change_direction` call has been made
since the last `move_snake` call (or since the start). The flag tells whether such a
call has been made; a second one is then not part of the relation, also at the end of
the run. -/
inductive ReachableOneTurn : Game → Bool → Prop where
  | init : ReachableOneTurn Game.init false
  | turn {g : Game} (pressed : Direction) :
      ReachableOneTurn g false → ReachableOneTurn (g.change_direction pressed) true
  | move {g g1 : Game} {turned : Bool} (r : Nat) :
      ReachableOneTurn g turned → g.move_snake r = some g1 → ReachableOneTurn g1 false


/-- The events the main loop tells apart (source lines 243-276): the quit event, a
key mapped to a heading (arrow keys and WASD), the pause key (P or space), and any
other event or key. -/
inductive Event where
  | quit
  | key (pressed : Direction)
  | pauseKey
  | other
  deriving DecidableEq, Repr

/-- Source lines 208 and 238: the variables `game` and `quit` of `main`. -/
structure MainLoop where
  game : Game
  quit : Bool

/-- Source lines 208 and 238: `Game game;` and `bool quit = false;`. -/
def MainLoop.init : MainLoop := { game := Game.init, quit := false }

/-- Source lines 244-276: the body of the event loop for one polled event. The test
of `is_finished` is made here, so it is only made when an event arrives. -/
def MainLoop.poll (l : MainLoop) (event : Event) : MainLoop :=
  let quit := if event = Event.quit ∨ l.game.is_finished = true then true else l.quit
  let game :=
    match event with
    | Event.key pressed => l.game.change_direction pressed
    | Event.pauseKey => l.game.toggle_pause
    | _ => l.game
  { game := game, quit := quit }

/-- Source lines 241-298: one iteration of the main loop. All pending events are
polled, then `move_snake` is called unless the game is paused; `quit` is not read
before the next iteration. `r` is the outcome of the random draw of that call. -/
def MainLoop.frame (l : MainLoop) (events : List Event) (r : Nat) : Option MainLoop :=
  let l1 := events.foldl MainLoop.poll l
  (l1.game.tick r).map fun g => { l1 with game := g }

/-- Source lines 240-299: `while (!quit)`, run on the given iterations, each with
the events pending at its start and the outcome of its random draw. -/
def MainLoop.run (l : MainLoop) : List (List Event × Nat) → Option MainLoop
  | [] => some l
  | f :: fs => if l.quit then some l else (l.frame f.1 f.2).bind fun l1 => l1.run fs

/-- Iterations of the main loop, with one key at most in each, that end in a
collision: nine moves left, up to the food at `(3,3)` and on to `(3,2)`, right to
`(4,2)`, down to `(4,3)`, then left into the last segment at `(3,3)`. -/
def framesToCollision : List (List Event × Nat) :=
  List.replicate 9 ([], 0) ++ [([Event.key Direction.UP], 0)] ++ List.replicate 9 ([], 0) ++
    [([Event.key Direction.RIGHT], 0), ([Event.key Direction.DOWN], 0),
      ([Event.key Direction.LEFT], 0)]

/-! ## Basic facts about the operations -/

theorem Board.setValue_apply (b : Board) (row col : Int) (tie : Option Tie) (i j : Int) :
    b.setValue row col tie i j = if i = row ∧ j = col then tie else b i j := rfl

theorem Board.mem_emptyCells (b : Board) (p : Point) :
    p ∈ b.emptyCells ↔
      (0 ≤ p.x ∧ p.x < 27 ∧ 0 ≤ p.y ∧ p.y < 27) ∧ b p.x p.y = none := by
  obtain ⟨x, y⟩ := p
  simp only [Board.emptyCells, MATRIX_SIZE, List.mem_flatMap, List.mem_filterMap, List.mem_range]
  constructor
  · rintro ⟨i, hi, j, hj, hij⟩
    split at hij
    · rename_i hb
      simp only [Option.some.injEq, Point.mk.injEq] at hij
      obtain ⟨rfl, rfl⟩ := hij
      exact ⟨⟨by omega, by omega, by omega, by omega⟩, hb⟩
    · simp at hij
  · rintro ⟨⟨hx0, hx1, hy0, hy1⟩, hb⟩
    refine ⟨x.toNat, by omega, y.toNat, by omega, ?_⟩
    have hx : ((x.toNat : Nat) : Int) = x := Int.toNat_of_nonneg hx0
    have hy : ((y.toNat : Nat) : Int) = y := Int.toNat_of_nonneg hy0
    simp only [hx, hy, hb, if_true]

theorem Board.generate_food_cases (b : Board) (r : Nat) :
    (b.emptyCells = [] ∧ b.generate_food r = (none, b)) ∨
    (∃ p, p ∈ b.emptyCells ∧ b.generate_food r = (some p, b.setValue p.x p.y (some Tie.Food))) := by
  unfold Board.generate_food
  by_cases h : b.emptyCells = []
  · left
    simp [h]
  · right
    refine ⟨b.emptyCells.get ⟨r % b.emptyCells.length, Nat.mod_lt r (List.length_pos.mpr h)⟩,
      List.get_mem _ _ _, ?_⟩
    simp [h]

theorem Game.eat_cases (g : Game) (r : Nat) :
    (g.board.emptyCells = [] ∧ g.eat r = { g with is_finished := true }) ∨
    (∃ p, p ∈ g.board.emptyCells ∧
      g.eat r = { g with board := g.board.setValue p.x p.y (some Tie.Food), food := p }) := by
  unfold Game.eat
  rcases g.board.generate_food_cases r with ⟨he, h⟩ | ⟨p, hp, h⟩
  · left
    rw [h]
    exact ⟨he, rfl⟩
  · right
    rw [h]
    exact ⟨p, hp, rfl⟩

theorem Game.move_snake_particle (g : Game) (r : Nat) (old_head : Point) (rest : List Point)
    (hs : g.snake = old_head :: rest)
    (ht : g.board.getValue (new_head g.direction old_head).x (new_head g.direction old_head).y
      = some Tie.Particle) :
    g.move_snake r = some { g with is_finished := true } := by
  simp [Game.move_snake, hs, ht]

theorem Game.move_snake_food (g : Game) (r : Nat) (old_head : Point) (rest : List Point)
    (hs : g.snake = old_head :: rest)
    (ht : g.board.getValue (new_head g.direction old_head).x (new_head g.direction old_head).y
      = some Tie.Food) :
    g.move_snake r = some { g.eat r with
      snake := new_head g.direction old_head :: g.snake
      board := (((g.eat r).board.setValue
        (g.snake.getLast (by simp [hs])).x (g.snake.getLast (by simp [hs])).y none).setValue
        (new_head g.direction old_head).x (new_head g.direction old_head).y (some Tie.Particle)) } := by
  simp [Game.move_snake, hs, ht]

theorem Game.move_snake_empty (g : Game) (r : Nat) (old_head : Point) (rest : List Point)
    (hs : g.snake = old_head :: rest)
    (ht : g.board.getValue (new_head g.direction old_head).x (new_head g.direction old_head).y
      = none) :
    g.move_snake r = some { g with
      snake := new_head g.direction old_head :: g.snake.dropLast
      board := ((g.board.setValue
        (g.snake.getLast (by simp [hs])).x (g.snake.getLast (by simp [hs])).y none).setValue
        (new_head g.direction old_head).x (new_head g.direction old_head).y (some Tie.Particle)) } := by
  simp [Game.move_snake, hs, ht]

theorem Point.eq_iff (p q : Point) : p = q ↔ p.x = q.x ∧ p.y = q.y := by
  cases p
  cases q
  simp

theorem Board.setValue_point (b : Board) (q : Point) (tie : Option Tie) (p : Point) :
    b.setValue q.x q.y tie p.x p.y = if p = q then tie else b p.x p.y := by
  simp only [Board.setValue_apply, Point.eq_iff]

theorem Board.set_set_point (b : Board) (t nh p : Point) :
    ((b.setValue t.x t.y none).setValue nh.x nh.y (some Tie.Particle)) p.x p.y =
      if p = nh then some Tie.Particle else if p = t then none else b p.x p.y := by
  simp only [Board.setValue_apply, Point.eq_iff]

theorem new_head_inRange (d : Direction) (h : Point) (hr : InRange h) :
    InRange (new_head d h) := by
  obtain ⟨h1, h2, h3, h4⟩ := hr
  simp only [MATRIX_SIZE, Nat.cast_ofNat] at h2 h4
  cases d <;> simp only [new_head, InRange, MATRIX_SIZE, Nat.cast_ofNat] <;>
    split_ifs <;> omega

theorem getLast_not_mem_dropLast {α : Type} {l : List α} (hne : l ≠ []) (hnd : l.Nodup) :
    l.getLast hne ∉ l.dropLast := by
  have hsplit := List.dropLast_append_getLast hne
  rw [← hsplit] at hnd
  intro hmem
  exact (List.disjoint_of_nodup_append hnd) hmem (List.mem_singleton_self _)

theorem mem_dropLast_or_eq_getLast {α : Type} {l : List α} (hne : l ≠ []) {a : α} (h : a ∈ l) :
    a ∈ l.dropLast ∨ a = l.getLast hne := by
  have hsplit := List.dropLast_append_getLast hne
  rw [← hsplit] at h
  rcases List.mem_append.mp h with h1 | h1
  · exact Or.inl h1
  · exact Or.inr (List.mem_singleton.mp h1)

/-! ## The invariant -/

theorem Inv.init : Inv Game.init where
  nonempty := by simp [Game.init]
  nodup := by decide
  body := by
    intro p hp
    simp only [Game.init, List.dropLast, List.mem_cons, List.mem_singleton, List.not_mem_nil,
      or_false] at hp
    rcases hp with rfl | rfl <;> simp [Game.init, Board.init]
  tail_not_food := by
    intro p hp
    simp only [Game.init, List.getLast?, List.getLast, Option.mem_def, Option.some.injEq] at hp
    subst hp
    simp [Game.init, Board.init]
  sound := by
    intro i j h
    have h2 : (i = 12 ∨ i = 13 ∨ i = 14) ∧ j = 12 := by
      simp only [Game.init, Board.init] at h
      by_contra hc
      split_ifs at h
      exact Tie.noConfusion (Option.some.inj h)
    obtain ⟨h3, rfl⟩ := h2
    simp only [Game.init, List.mem_cons, List.mem_singleton, Point.mk.injEq, List.not_mem_nil,
      or_false, and_true]
    exact h3
  one_food := by
    intro i j k l h1 h2
    have key : ∀ a b : Int, Board.init a b = some Tie.Food → a = 3 ∧ b = 3 := by
      intro a b h
      simp only [Board.init] at h
      by_contra hc
      split_ifs at h
      exact Tie.noConfusion (Option.some.inj h)
    have h3 := key i j h1
    have h4 := key k l h2
    exact ⟨h3.1.trans h4.1.symm, h3.2.trans h4.2.symm⟩
  in_range := by
    intro p hp
    simp only [Game.init, List.mem_cons, List.mem_singleton, List.not_mem_nil, or_false] at hp
    rcases hp with rfl | rfl | rfl <;> simp [InRange, MATRIX_SIZE]
  food_in_range := by simp [Game.init, InRange, MATRIX_SIZE]

theorem Inv.change_direction {g : Game} (h : Inv g) (pressed : Direction) :
    Inv (g.change_direction pressed) := by
  obtain ⟨h1, h2, h3, h4, h5, h6, h7, h8⟩ := h
  unfold Game.change_direction
  split <;> split_ifs <;> exact ⟨h1, h2, h3, h4, h5, h6, h7, h8⟩

theorem Inv.toggle_pause {g : Game} (h : Inv g) : Inv g.toggle_pause := by
  obtain ⟨h1, h2, h3, h4, h5, h6, h7, h8⟩ := h
  exact ⟨h1, h2, h3, h4, h5, h6, h7, h8⟩

theorem Inv.move_empty {g : Game} (h : Inv g) (nh : Point) (hr : InRange nh)
    (ht : g.board nh.x nh.y = none) :
    Inv { g with
      snake := nh :: g.snake.dropLast
      board := (g.board.setValue (g.snake.getLast h.nonempty).x
        (g.snake.getLast h.nonempty).y none).setValue nh.x nh.y (some Tie.Particle) } := by
  have hne := h.nonempty
  have htd : g.snake.getLast hne ∉ g.snake.dropLast := getLast_not_mem_dropLast hne h.nodup
  have hnh : nh ∉ g.snake.dropLast := fun hm => by
    have h1 := h.body nh hm
    rw [ht] at h1
    cases h1
  have hall : ∀ p ∈ nh :: g.snake.dropLast,
      ((g.board.setValue (g.snake.getLast hne).x (g.snake.getLast hne).y none).setValue
        nh.x nh.y (some Tie.Particle)) p.x p.y = some Tie.Particle := by
    intro p hp
    rw [Board.set_set_point]
    by_cases h1 : p = nh
    · simp [h1]
    · have hp1 : p ∈ g.snake.dropLast := by simpa [h1] using hp
      have h2 : p ≠ g.snake.getLast hne := fun e => htd (e ▸ hp1)
      simp [h1, h2, h.body p hp1]
  refine ⟨by simp, ?_, ?_, ?_, ?_, ?_, ?_, h.food_in_range⟩
  · exact List.nodup_cons.mpr ⟨hnh, h.nodup.sublist (List.dropLast_sublist _)⟩
  · intro p hp
    exact hall p (List.mem_of_mem_dropLast hp)
  · intro p hp
    have h1 := hall p (List.mem_of_mem_getLast? hp)
    intro h2
    have h3 : some Tie.Particle = some Tie.Food := h1.symm.trans h2
    cases h3
  · intro i j hij
    have h1 := Board.set_set_point g.board (g.snake.getLast hne) nh ⟨i, j⟩
    have h2 : (if (Point.mk i j) = nh then some Tie.Particle
        else if (Point.mk i j) = g.snake.getLast hne then none else g.board i j) =
        some Tie.Particle := h1.symm.trans hij
    by_cases e1 : Point.mk i j = nh
    · exact e1 ▸ List.mem_cons_self _ _
    · rw [if_neg e1] at h2
      by_cases e2 : Point.mk i j = g.snake.getLast hne
      · rw [if_pos e2] at h2
        cases h2
      · rw [if_neg e2] at h2
        rcases mem_dropLast_or_eq_getLast hne (h.sound i j h2) with h3 | h3
        · exact List.mem_cons_of_mem _ h3
        · exact absurd h3 e2
  · intro i j k l h1 h2
    have key : ∀ a b : Int,
        ((g.board.setValue (g.snake.getLast hne).x (g.snake.getLast hne).y none).setValue
          nh.x nh.y (some Tie.Particle)) a b = some Tie.Food → g.board a b = some Tie.Food := by
      intro a b hab
      simp only [Board.setValue_apply] at hab
      split_ifs at hab
      · cases hab
      · exact hab
    exact h.one_food i j k l (key i j h1) (key k l h2)
  · intro p hp
    rcases List.mem_cons.mp hp with rfl | h1
    · exact hr
    · exact h.in_range p (List.mem_of_mem_dropLast h1)

theorem Inv.move_food_aux {g : Game} (h : Inv g) (nh : Point) (hr : InRange nh)
    (ht : g.board nh.x nh.y = some Tie.Food) (b1 : Board) (food1 : Point) (fin : Bool)
    (hb1 : b1 = g.board ∨
      ∃ f : Point, g.board f.x f.y = none ∧ b1 = g.board.setValue f.x f.y (some Tie.Food))
    (hf : InRange food1) :
    Inv { board := (b1.setValue (g.snake.getLast h.nonempty).x
            (g.snake.getLast h.nonempty).y none).setValue nh.x nh.y (some Tie.Particle)
          food := food1
          snake := nh :: g.snake
          direction := g.direction
          is_finished := fin
          is_paused := g.is_paused } := by
  have hne := h.nonempty
  have htd : g.snake.getLast hne ∉ g.snake.dropLast := getLast_not_mem_dropLast hne h.nodup
  have htf : g.board (g.snake.getLast hne).x (g.snake.getLast hne).y ≠ some Tie.Food :=
    h.tail_not_food _ (List.getLast_mem_getLast? hne)
  have hnt : nh ≠ g.snake.getLast hne := fun e => htf (e ▸ ht)
  have hnh : nh ∉ g.snake := fun hm => by
    rcases mem_dropLast_or_eq_getLast hne hm with h1 | h1
    · have h2 := h.body nh h1
      rw [ht] at h2
      cases h2
    · exact hnt h1
  -- the board after the food block, cell by cell
  have hA : ∀ p : Point, g.board p.x p.y = some Tie.Particle → b1 p.x p.y = some Tie.Particle := by
    intro p hp
    rcases hb1 with rfl | ⟨f, hf0, rfl⟩
    · exact hp
    · rw [Board.setValue_point]
      have h1 : p ≠ f := fun e => by
        rw [e, hf0] at hp
        cases hp
      rw [if_neg h1]
      exact hp
  have hB : ∀ p : Point, b1 p.x p.y = some Tie.Particle → g.board p.x p.y = some Tie.Particle := by
    intro p hp
    rcases hb1 with rfl | ⟨f, hf0, rfl⟩
    · exact hp
    · rw [Board.setValue_point] at hp
      split_ifs at hp
      · cases hp
      · exact hp
  have hC : ∀ p q : Point, p ≠ nh → q ≠ nh → b1 p.x p.y = some Tie.Food →
      b1 q.x q.y = some Tie.Food → p = q := by
    intro p q hp hq h1 h2
    have old : ∀ c : Point, c ≠ nh → g.board c.x c.y ≠ some Tie.Food := fun c hc e =>
      hc ((Point.eq_iff c nh).mpr (h.one_food c.x c.y nh.x nh.y e ht))
    rcases hb1 with rfl | ⟨f, hf0, rfl⟩
    · exact absurd h1 (old p hp)
    · rw [Board.setValue_point] at h1 h2
      by_cases e1 : p = f
      · by_cases e2 : q = f
        · exact e1.trans e2.symm
        · rw [if_neg e2] at h2
          exact absurd h2 (old q hq)
      · rw [if_neg e1] at h1
        exact absurd h1 (old p hp)
  have hall : ∀ p ∈ nh :: g.snake.dropLast,
      ((b1.setValue (g.snake.getLast hne).x (g.snake.getLast hne).y none).setValue
        nh.x nh.y (some Tie.Particle)) p.x p.y = some Tie.Particle := by
    intro p hp
    rw [Board.set_set_point]
    by_cases h1 : p = nh
    · simp [h1]
    · have hp1 : p ∈ g.snake.dropLast := by simpa [h1] using hp
      have h2 : p ≠ g.snake.getLast hne := fun e => htd (e ▸ hp1)
      simp [h1, h2, hA p (h.body p hp1)]
  refine ⟨by simp, ?_, ?_, ?_, ?_, ?_, ?_, hf⟩
  · exact List.nodup_cons.mpr ⟨hnh, h.nodup⟩
  · intro p hp
    have h1 : (nh :: g.snake).dropLast = nh :: g.snake.dropLast :=
      List.dropLast_cons_of_ne_nil hne
    exact hall p (h1 ▸ hp)
  · intro p hp
    have h1 : (nh :: g.snake).getLast? = some (g.snake.getLast hne) := by
      rw [List.getLast?_eq_getLast _ (List.cons_ne_nil _ _), List.getLast_cons hne]
    have h2 : p = g.snake.getLast hne := by
      have h3 : some (g.snake.getLast hne) = some p := h1.symm.trans hp
      exact (Option.some.inj h3).symm
    have h4 := Board.set_set_point b1 (g.snake.getLast hne) nh p
    intro h5
    have h6 := h4.symm.trans h5
    rw [if_neg (h2 ▸ hnt.symm), if_pos h2] at h6
    cases h6
  · intro i j hij
    have h1 := (Board.set_set_point b1 (g.snake.getLast hne) nh ⟨i, j⟩).symm.trans hij
    by_cases e1 : Point.mk i j = nh
    · exact e1 ▸ List.mem_cons_self _ _
    · rw [if_neg e1] at h1
      by_cases e2 : Point.mk i j = g.snake.getLast hne
      · rw [if_pos e2] at h1
        cases h1
      · rw [if_neg e2] at h1
        exact List.mem_cons_of_mem _ (h.sound i j (hB ⟨i, j⟩ h1))
  · intro i j k l h1 h2
    have key : ∀ c : Point,
        ((b1.setValue (g.snake.getLast hne).x (g.snake.getLast hne).y none).setValue
          nh.x nh.y (some Tie.Particle)) c.x c.y = some Tie.Food →
        c ≠ nh ∧ b1 c.x c.y = some Tie.Food := by
      intro c hc
      rw [Board.set_set_point] at hc
      split_ifs at hc with e1 e2
      · cases hc
      · exact ⟨e1, hc⟩
    obtain ⟨a1, a2⟩ := key ⟨i, j⟩ h1
    obtain ⟨a3, a4⟩ := key ⟨k, l⟩ h2
    exact (Point.eq_iff _ _).mp (hC ⟨i, j⟩ ⟨k, l⟩ a1 a3 a2 a4)
  · intro p hp
    rcases List.mem_cons.mp hp with rfl | h1
    · exact hr
    · exact h.in_range p h1

theorem Inv.move_food {g : Game} (h : Inv g) (nh : Point) (hr : InRange nh)
    (ht : g.board nh.x nh.y = some Tie.Food) (r : Nat) :
    Inv { g.eat r with
      snake := nh :: g.snake
      board := ((g.eat r).board.setValue (g.snake.getLast h.nonempty).x
        (g.snake.getLast h.nonempty).y none).setValue nh.x nh.y (some Tie.Particle) } := by
  rcases g.eat_cases r with ⟨_, he⟩ | ⟨f, hf, he⟩
  · rw [he]
    exact Inv.move_food_aux h nh hr ht g.board g.food true (Or.inl rfl) h.food_in_range
  · rw [he]
    have h1 := (Board.mem_emptyCells g.board f).mp hf
    exact Inv.move_food_aux h nh hr ht _ f g.is_finished (Or.inr ⟨f, h1.2, rfl⟩)
      (by simpa [InRange, MATRIX_SIZE] using h1.1)

theorem Inv.move_snake {g g1 : Game} (h : Inv g) (r : Nat) (hm : g.move_snake r = some g1) :
    Inv g1 := by
  obtain ⟨old_head, rest, hs⟩ := List.exists_cons_of_ne_nil h.nonempty
  have hr : InRange (new_head g.direction old_head) :=
    new_head_inRange _ _ (h.in_range old_head (hs ▸ List.mem_cons_self _ _))
  rcases hc : g.board.getValue (new_head g.direction old_head).x (new_head g.direction old_head).y
    with _ | tie
  · rw [Game.move_snake_empty g r old_head rest hs hc] at hm
    cases hm
    exact Inv.move_empty h _ hr hc
  · cases tie
    · rw [Game.move_snake_food g r old_head rest hs hc] at hm
      cases hm
      exact Inv.move_food h _ hr hc r
    · rw [Game.move_snake_particle g r old_head rest hs hc] at hm
      cases hm
      obtain ⟨h1, h2, h3, h4, h5, h6, h7, h8⟩ := h
      exact ⟨h1, h2, h3, h4, h5, h6, h7, h8⟩

theorem Inv.of_reachable {g : Game} (h : Reachable g) : Inv g := by
  induction h with
  | init => exact Inv.init
  | turn pressed _ ih => exact ih.change_direction pressed
  | pause _ ih => exact ih.toggle_pause
  | move r _ hm ih => exact ih.move_snake r hm

theorem Reachable.act {g g1 : Game} (h : Reachable g) (a : Action) (ha : g.act a = some g1) :
    Reachable g1 := by
  cases a with
  | turn pressed =>
    cases ha
    exact Reachable.turn pressed h
  | pause =>
    cases ha
    exact Reachable.pause h
  | move r => exact Reachable.move r h ha

theorem Reachable.run {g g1 : Game} (h : Reachable g) (as : List Action)
    (hr : g.run as = some g1) : Reachable g1 := by
  induction as generalizing g with
  | nil =>
    cases hr
    exact h
  | cons a as ih =>
    simp only [Game.run] at hr
    cases ha : g.act a with
    | none => simp [ha] at hr
    | some g2 =>
      rw [ha] at hr
      exact ih (h.act a ha) hr

/-! ## The claims -/

/-- C2. A move whose cell ahead of the head is a snake segment sets `is_finished`
and changes nothing else: the snake, every grid cell, the food position, the heading
and `is_paused` are as before the call. -/
theorem move_snake_collision (g : Game) (r : Nat) (old_head : Point) (rest : List Point)
    (hs : g.snake = old_head :: rest)
    (hc : g.board.getValue (new_head g.direction old_head).x (new_head g.direction old_head).y
      = some Tie.Particle) :
    ∃ g1, g.move_snake r = some g1 ∧ g1.is_finished = true ∧ g1.snake = g.snake ∧
      (∀ i j, g1.board i j = g.board i j) ∧ g1.food = g.food ∧
      g1.direction = g.direction ∧ g1.is_paused = g.is_paused :=
  ⟨{ g with is_finished := true }, Game.move_snake_particle g r old_head rest hs hc,
    rfl, rfl, fun _ _ => rfl, rfl, rfl, rfl⟩

theorem move_snake_collision_witness :
    Game.facingBody.snake = Point.mk 12 12 :: [Point.mk 13 12, Point.mk 14 12] ∧
    Game.facingBody.board.getValue (new_head Game.facingBody.direction (Point.mk 12 12)).x
      (new_head Game.facingBody.direction (Point.mk 12 12)).y = some Tie.Particle ∧
    ∃ g1, Game.facingBody.move_snake 5 = some g1 ∧ g1.is_finished = true ∧
      g1.snake = Game.facingBody.snake ∧
      (∀ i j, g1.board i j = Game.facingBody.board i j) ∧ g1.food = Game.facingBody.food ∧
      g1.direction = Game.facingBody.direction ∧ g1.is_paused = Game.facingBody.is_paused :=
  ⟨rfl, by decide, move_snake_collision Game.facingBody 5 (Point.mk 12 12)
    [Point.mk 13 12, Point.mk 14 12] rfl (by decide)⟩

/-- C3. A move whose cell ahead of the head is food, whatever the random draw, puts
the new head in front of the whole old snake: the length grows by one, the head is the
former food cell and the old tail is still the last element. -/
theorem move_snake_growth (g : Game) (r : Nat) (old_head : Point) (rest : List Point)
    (hs : g.snake = old_head :: rest)
    (hc : g.board.getValue (new_head g.direction old_head).x (new_head g.direction old_head).y
      = some Tie.Food) :
    ∃ g1, g.move_snake r = some g1 ∧
      g1.snake = new_head g.direction old_head :: g.snake ∧
      g1.snake.length = g.snake.length + 1 ∧
      g1.snake.head? = some (new_head g.direction old_head) ∧
      g1.snake.getLast? = g.snake.getLast? := by
  refine ⟨_, Game.move_snake_food g r old_head rest hs hc, rfl, rfl, rfl, ?_⟩
  show (new_head g.direction old_head :: g.snake).getLast? = g.snake.getLast?
  rw [hs]
  exact List.getLast?_cons_cons

theorem move_snake_growth_witness :
    Game.facingFood.snake = Point.mk 12 12 :: [Point.mk 13 12, Point.mk 14 12] ∧
    Game.facingFood.board.getValue (new_head Game.facingFood.direction (Point.mk 12 12)).x
      (new_head Game.facingFood.direction (Point.mk 12 12)).y = some Tie.Food ∧
    ∃ g1, Game.facingFood.move_snake 7 = some g1 ∧
      g1.snake = new_head Game.facingFood.direction (Point.mk 12 12) :: Game.facingFood.snake ∧
      g1.snake.length = Game.facingFood.snake.length + 1 ∧
      g1.snake.head? = some (new_head Game.facingFood.direction (Point.mk 12 12)) ∧
      g1.snake.getLast? = Game.facingFood.snake.getLast? :=
  ⟨rfl, by decide, move_snake_growth Game.facingFood 7 (Point.mk 12 12)
    [Point.mk 13 12, Point.mk 14 12] rfl (by decide)⟩

/-- C5. A move into an empty cell, from a state whose duplicate-free snake occupies
exactly the grid cells marked `Particle`: the snake becomes the new head followed by
the old snake without its last element, so the length is unchanged; the old tail cell
is empty, the new head cell is `Particle`, every other cell is as before, and
`is_finished` is unchanged. -/
theorem move_snake_plain (g : Game) (r : Nat) (old_head : Point) (rest : List Point)
    (hs : g.snake = old_head :: rest)
    (_hnd : g.snake.Nodup)
    (hbody : ∀ p ∈ g.snake, g.board p.x p.y = some Tie.Particle)
    (_hsound : ∀ i j : Int, 0 ≤ i → i < 27 → 0 ≤ j → j < 27 →
      g.board i j = some Tie.Particle → Point.mk i j ∈ g.snake)
    (hc : g.board.getValue (new_head g.direction old_head).x (new_head g.direction old_head).y
      = none) :
    ∃ g1, g.move_snake r = some g1 ∧
      g1.snake = new_head g.direction old_head :: g.snake.dropLast ∧
      g1.snake.length = g.snake.length ∧
      g1.board ((old_head :: rest).getLast (List.cons_ne_nil old_head rest)).x
        ((old_head :: rest).getLast (List.cons_ne_nil old_head rest)).y = none ∧
      g1.board (new_head g.direction old_head).x (new_head g.direction old_head).y
        = some Tie.Particle ∧
      (∀ i j : Int, Point.mk i j ≠ (old_head :: rest).getLast (List.cons_ne_nil old_head rest) →
        Point.mk i j ≠ new_head g.direction old_head → g1.board i j = g.board i j) ∧
      g1.is_finished = g.is_finished := by
  have hne : g.snake ≠ [] := by simp [hs]
  have hlast : (old_head :: rest).getLast (List.cons_ne_nil old_head rest) = g.snake.getLast hne := by
    simp only [hs]
  have htail : g.board (g.snake.getLast hne).x (g.snake.getLast hne).y = some Tie.Particle :=
    hbody _ (List.getLast_mem hne)
  have hneq : g.snake.getLast hne ≠ new_head g.direction old_head := fun e => by
    rw [e] at htail
    have h1 : none = some Tie.Particle := hc.symm.trans htail
    cases h1
  refine ⟨_, Game.move_snake_empty g r old_head rest hs hc, rfl, ?_, ?_, ?_, ?_, rfl⟩
  · show (new_head g.direction old_head :: g.snake.dropLast).length = g.snake.length
    rw [List.length_cons, List.length_dropLast]
    have h1 : 0 < g.snake.length := List.length_pos.mpr hne
    omega
  · rw [hlast]
    show ((g.board.setValue (g.snake.getLast hne).x (g.snake.getLast hne).y none).setValue
      (new_head g.direction old_head).x (new_head g.direction old_head).y (some Tie.Particle))
      (g.snake.getLast hne).x (g.snake.getLast hne).y = none
    rw [Board.set_set_point, if_neg hneq, if_pos rfl]
  · show ((g.board.setValue (g.snake.getLast hne).x (g.snake.getLast hne).y none).setValue
      (new_head g.direction old_head).x (new_head g.direction old_head).y (some Tie.Particle))
      (new_head g.direction old_head).x (new_head g.direction old_head).y = some Tie.Particle
    rw [Board.set_set_point, if_pos rfl]
  · intro i j h1 h2
    rw [hlast] at h1
    have h3 := Board.set_set_point g.board (g.snake.getLast hne)
      (new_head g.direction old_head) (Point.mk i j)
    rw [if_neg h2, if_neg h1] at h3
    exact h3

theorem move_snake_plain_witness :
    Game.init.snake = Point.mk 12 12 :: [Point.mk 13 12, Point.mk 14 12] ∧
    Game.init.snake.Nodup ∧
    (∀ p ∈ Game.init.snake, Game.init.board p.x p.y = some Tie.Particle) ∧
    (∀ i j : Int, 0 ≤ i → i < 27 → 0 ≤ j → j < 27 →
      Game.init.board i j = some Tie.Particle → Point.mk i j ∈ Game.init.snake) ∧
    Game.init.board.getValue (new_head Game.init.direction (Point.mk 12 12)).x
      (new_head Game.init.direction (Point.mk 12 12)).y = none ∧
    ∃ g1, Game.init.move_snake 0 = some g1 ∧
      g1.snake = new_head Game.init.direction (Point.mk 12 12) :: Game.init.snake.dropLast ∧
      g1.snake.length = Game.init.snake.length ∧
      g1.board ((Point.mk 12 12 :: [Point.mk 13 12, Point.mk 14 12]).getLast
          (List.cons_ne_nil _ _)).x
        ((Point.mk 12 12 :: [Point.mk 13 12, Point.mk 14 12]).getLast
          (List.cons_ne_nil _ _)).y = none ∧
      g1.board (new_head Game.init.direction (Point.mk 12 12)).x
        (new_head Game.init.direction (Point.mk 12 12)).y = some Tie.Particle ∧
      (∀ i j : Int, Point.mk i j ≠ (Point.mk 12 12 :: [Point.mk 13 12, Point.mk 14 12]).getLast
          (List.cons_ne_nil _ _) →
        Point.mk i j ≠ new_head Game.init.direction (Point.mk 12 12) →
        g1.board i j = Game.init.board i j) ∧
      g1.is_finished = Game.init.is_finished :=
  ⟨rfl, by decide, by decide, fun i j _ _ _ _ h => Inv.init.sound i j h, by decide,
    move_snake_plain Game.init 0 (Point.mk 12 12) [Point.mk 13 12, Point.mk 14 12] rfl
      (by decide) (by decide) (fun i j _ _ _ _ h => Inv.init.sound i j h) (by decide)⟩

/-- C6. The snake never overlaps itself: in every reachable state the snake
sequence has no duplicate positions. -/
theorem snake_nodup (g : Game) (h : Reachable g) : g.snake.Nodup :=
  (Inv.of_reachable h).nodup

theorem snake_nodup_witness : Reachable Game.init ∧ Game.init.snake.Nodup :=
  ⟨Reachable.init, snake_nodup Game.init Reachable.init⟩

/-- C8. In every reachable state the grid holds at most one food cell: any two cells
marked `Food` are the same cell. -/
theorem at_most_one_food (g : Game) (h : Reachable g) (i j k l : Int)
    (h1 : g.board i j = some Tie.Food) (h2 : g.board k l = some Tie.Food) :
    i = k ∧ j = l :=
  (Inv.of_reachable h).one_food i j k l h1 h2

theorem at_most_one_food_witness :
    Reachable Game.init ∧ Game.init.board 3 3 = some Tie.Food ∧
      Game.init.board 3 3 = some Tie.Food ∧ (3 : Int) = 3 ∧ (3 : Int) = 3 :=
  ⟨Reachable.init, by decide, by decide,
    at_most_one_food Game.init Reachable.init 3 3 3 3 (by decide) (by decide)⟩

/-- The advance of one iteration of the main loop on a paused game returns the very
same state: the pause guard of lines 285-287 makes the advance a no-op, so the snake,
every grid cell, the food position, the heading and both flags are as before. -/
theorem tick_paused (g : Game) (r : Nat) (hp : g.is_paused = true) : g.tick r = some g := by
  simp [Game.tick, hp]

theorem tick_paused_witness :
    Game.init.toggle_pause.is_paused = true ∧
      Game.init.toggle_pause.tick 3 = some Game.init.toggle_pause :=
  ⟨rfl, tick_paused Game.init.toggle_pause 3 rfl⟩

/-- C10. `change_direction` sets the heading to the request exactly when the request
is orthogonal to the current heading (`LEFT`/`RIGHT` when heading `UP` or `DOWN`,
`UP`/`DOWN` when heading `LEFT` or `RIGHT`); a request equal or opposite to the heading
leaves the whole state unchanged; the snake, grid, food position and both flags are
never changed. -/
theorem change_direction_spec (g : Game) (pressed : Direction) :
    (pressed.orthogonal g.direction ↔
      ((g.direction = Direction.UP ∨ g.direction = Direction.DOWN) ∧
          (pressed = Direction.LEFT ∨ pressed = Direction.RIGHT)) ∨
        ((g.direction = Direction.LEFT ∨ g.direction = Direction.RIGHT) ∧
          (pressed = Direction.UP ∨ pressed = Direction.DOWN))) ∧
    (pressed.orthogonal g.direction → (g.change_direction pressed).direction = pressed) ∧
    ((g.change_direction pressed).direction ≠ g.direction ↔ pressed.orthogonal g.direction) ∧
    (pressed = g.direction ∨ pressed = g.direction.opposite → g.change_direction pressed = g) ∧
    (g.change_direction pressed).snake = g.snake ∧
    (g.change_direction pressed).board = g.board ∧
    (g.change_direction pressed).food = g.food ∧
    (g.change_direction pressed).is_finished = g.is_finished ∧
    (g.change_direction pressed).is_paused = g.is_paused := by
  obtain ⟨board, food, snake, direction, fin, paused⟩ := g
  cases direction <;> cases pressed <;>
    simp [Game.change_direction, Direction.orthogonal, Direction.horizontal, Direction.opposite]

theorem Game.run_append (g : Game) (as bs : List Action) :
    g.run (as ++ bs) = (g.run as).bind fun g1 => g1.run bs := by
  induction as generalizing g with
  | nil => rfl
  | cons a as ih =>
    simp only [List.cons_append, Game.run]
    cases g.act a with
    | none => rfl
    | some g2 => exact ih g2

theorem exists_of_map_eq_true {o : Option Game} {f : Game → Bool} (h : o.map f = some true) :
    ∃ g, o = some g ∧ f g = true := by
  cases o with
  | none => cases h
  | some g => exact ⟨g, rfl, Option.some.inj h⟩

/-- The state next to the food: head `(3,4)` heading `UP`, tail `(3,6)`, the food
cell `(3,3)` ahead. -/
theorem toFood_state :
    ∃ g, Game.init.run toFood = some g ∧ Reachable g ∧
      g.snake = [Point.mk 3 4, Point.mk 3 5, Point.mk 3 6] ∧ g.direction = Direction.UP ∧
      g.board 3 3 = some Tie.Food ∧ g.board 3 6 = some Tie.Particle ∧
      g.is_finished = false ∧ g.is_paused = false := by
  have h : (Game.init.run toFood).map (fun g =>
      decide (g.snake = [Point.mk 3 4, Point.mk 3 5, Point.mk 3 6]) &&
      decide (g.direction = Direction.UP) && decide (g.board 3 3 = some Tie.Food) &&
      decide (g.board 3 6 = some Tie.Particle) && decide (g.is_finished = false) &&
      decide (g.is_paused = false)) = some true := by decide!
  obtain ⟨g, hg, hf⟩ := exists_of_map_eq_true h
  simp only [Bool.and_eq_true, decide_eq_true_eq] at hf
  obtain ⟨⟨⟨⟨⟨h1, h2⟩, h3⟩, h4⟩, h5⟩, h6⟩ := hf
  exact ⟨g, hg, Reachable.init.run toFood hg, h1, h2, h3, h4, h5, h6⟩

/-- C1, the defect. Nine moves left, a turn up and nine moves up bring the head onto
the food at `(3,3)`. Whatever the random draw `r`, in the state reached the snake is
`[(3,3),(3,4),(3,5),(3,6)]` and the grid cell of its last segment `(3,6)` is empty:
line 199 clears the tail cell although the tail was kept. -/
theorem snake_cell_unmarked_after_food (r : Nat) :
    ∃ g, Game.init.run (toFood ++ [Action.move r]) = some g ∧ Reachable g ∧
      g.snake = [Point.mk 3 3, Point.mk 3 4, Point.mk 3 5, Point.mk 3 6] ∧
      g.board 3 6 = none := by
  obtain ⟨g0, hg0, hr0, hs, hd, hf, _, _, _⟩ := toFood_state
  have hnh : new_head g0.direction (Point.mk 3 4) = Point.mk 3 3 := by
    rw [hd]
    decide
  have hc : g0.board.getValue (new_head g0.direction (Point.mk 3 4)).x
      (new_head g0.direction (Point.mk 3 4)).y = some Tie.Food := by
    rw [hnh]
    exact hf
  have hm := Game.move_snake_food g0 r (Point.mk 3 4) [Point.mk 3 5, Point.mk 3 6] hs hc
  refine ⟨_, ?_, Reachable.move r hr0 hm, ?_, ?_⟩
  · rw [Game.run_append, hg0]
    simp only [Option.bind, Game.run, Game.act, hm]
  · show new_head g0.direction (Point.mk 3 4) :: g0.snake = _
    rw [hnh, hs]
  · have hl : g0.snake.getLast (by simp [hs]) = Point.mk 3 6 := by
      simp only [hs]
      rfl
    show (((g0.eat r).board.setValue (g0.snake.getLast (by simp [hs])).x
      (g0.snake.getLast (by simp [hs])).y none).setValue
      (new_head g0.direction (Point.mk 3 4)).x (new_head g0.direction (Point.mk 3 4)).y
      (some Tie.Particle)) 3 6 = none
    rw [hl, hnh]
    simp [Board.setValue_apply]

/-- C4, the defect. In the reachable state next to the food (snake
`[(3,4),(3,5),(3,6)]` heading `UP`, tail cell `(3,6)` marked `Particle`, food ahead at
`(3,3)`), `move_snake` keeps the tail `(3,6)` in the snake but clears its grid cell. -/
theorem tail_cell_cleared_on_growth :
    (Game.init.run toFood).map (fun g => (g.snake, g.direction, g.board 3 6, g.board 3 3))
      = some ([Point.mk 3 4, Point.mk 3 5, Point.mk 3 6], Direction.UP,
          some Tie.Particle, some Tie.Food) ∧
    ((Game.init.run toFood).bind fun g => g.move_snake 0).map
        (fun g => (g.snake, g.board 3 6, g.is_finished))
      = some ([Point.mk 3 3, Point.mk 3 4, Point.mk 3 5, Point.mk 3 6], none, false) := by
  decide!

/-- C7, the defect. The head reaches the food at `(3,3)`; the draw `83` places the
new food at `(3,2)`, straight ahead; the next move eats it, and the draw `83` now picks
`(3,6)`, the cell of the tail that the previous move wrongly cleared. Line 199 then
clears that cell again: the game is not finished, the recorded food position is
`(3,6)`, and neither that cell nor any other cell of the grid is `Food`. -/
theorem food_erased_by_tail_clear :
    (Game.init.run (toFood ++ [Action.move 83, Action.move 83])).map
        (fun g => (g.snake, g.food, g.board 3 6, g.is_finished, g.is_paused,
          (List.range 27).all fun (i : Nat) => (List.range 27).all fun (j : Nat) =>
            decide (g.board (i : Int) (j : Int) ≠ some Tie.Food)))
      = some ([Point.mk 3 2, Point.mk 3 3, Point.mk 3 4, Point.mk 3 5, Point.mk 3 6],
          Point.mk 3 6, none, false, false, true) := by
  decide!

/-- C11. For a head with both coordinates in `[0, 26]` the new head is one step away
with wraparound: `((x-1) mod 27, y)` for `LEFT`, `((x+1) mod 27, y)` for `RIGHT`,
`(x, (y-1) mod 27)` for `UP`, `(x, (y+1) mod 27)` for `DOWN`, the remainder being the
non-negative one. In particular column 0 goes left to column 26 and column 26 goes right
to column 0 in the same row, and likewise for rows. -/
theorem new_head_wrap (x y : Int) (hx0 : 0 ≤ x) (hx1 : x ≤ 26) (hy0 : 0 ≤ y) (hy1 : y ≤ 26) :
    new_head Direction.LEFT (Point.mk x y) = Point.mk ((x - 1) % 27) y ∧
    new_head Direction.RIGHT (Point.mk x y) = Point.mk ((x + 1) % 27) y ∧
    new_head Direction.UP (Point.mk x y) = Point.mk x ((y - 1) % 27) ∧
    new_head Direction.DOWN (Point.mk x y) = Point.mk x ((y + 1) % 27) ∧
    new_head Direction.LEFT (Point.mk 0 y) = Point.mk 26 y ∧
    new_head Direction.RIGHT (Point.mk 26 y) = Point.mk 0 y ∧
    new_head Direction.UP (Point.mk x 0) = Point.mk x 26 ∧
    new_head Direction.DOWN (Point.mk x 26) = Point.mk x 0 := by
  simp only [new_head, MATRIX_SIZE, Nat.cast_ofNat, Point.mk.injEq, and_true, true_and]
  refine ⟨?_, ?_, ?_, ?_, ?_, ?_, ?_, ?_⟩
  · split_ifs <;> omega
  · split_ifs <;> omega
  · split_ifs <;> omega
  · split_ifs <;> omega
  · simp
  · simp
  · simp
  · simp

theorem new_head_wrap_witness :
    (0 : Int) ≤ 0 ∧ (0 : Int) ≤ 26 ∧ (0 : Int) ≤ 26 ∧ (26 : Int) ≤ 26 ∧
    (new_head Direction.LEFT (Point.mk 0 26) = Point.mk ((0 - 1) % 27) 26 ∧
    new_head Direction.RIGHT (Point.mk 0 26) = Point.mk ((0 + 1) % 27) 26 ∧
    new_head Direction.UP (Point.mk 0 26) = Point.mk 0 ((26 - 1) % 27) ∧
    new_head Direction.DOWN (Point.mk 0 26) = Point.mk 0 ((26 + 1) % 27) ∧
    new_head Direction.LEFT (Point.mk 0 26) = Point.mk 26 26 ∧
    new_head Direction.RIGHT (Point.mk 26 26) = Point.mk 0 26 ∧
    new_head Direction.UP (Point.mk 0 0) = Point.mk 0 26 ∧
    new_head Direction.DOWN (Point.mk 0 26) = Point.mk 0 0) :=
  ⟨by decide, by decide, by decide, by decide,
    new_head_wrap 0 26 (by decide) (by decide) (by decide) (by decide)⟩

theorem Board.emptyCells_eq_nil_iff (b : Board) :
    b.emptyCells = [] ↔ ∀ i j : Int, 0 ≤ i → i < 27 → 0 ≤ j → j < 27 → b i j ≠ none := by
  constructor
  · intro h i j hi0 hi1 hj0 hj1 hb
    have h1 : Point.mk i j ∈ b.emptyCells :=
      (Board.mem_emptyCells b (Point.mk i j)).mpr ⟨⟨hi0, hi1, hj0, hj1⟩, hb⟩
    rw [h] at h1
    cases h1
  · intro h
    apply List.eq_nil_iff_forall_not_mem.mpr
    intro p hp
    obtain ⟨⟨h1, h2, h3, h4⟩, h5⟩ := (Board.mem_emptyCells b p).mp hp
    exact h p.x p.y h1 h2 h3 h4 h5

/-- C12. `generate_food` on a grid without an empty cell returns no position and
leaves the grid unchanged; on a grid with an empty cell it returns, for every outcome
`r` of the random draw, a position inside the grid whose cell was empty before the call
and is `Food` after it, every other cell being unchanged. -/
theorem generate_food_spec (b : Board) (r : Nat) :
    ((∀ i j : Int, 0 ≤ i → i < 27 → 0 ≤ j → j < 27 → b i j ≠ none) →
      b.generate_food r = (none, b)) ∧
    ((∃ i j : Int, 0 ≤ i ∧ i < 27 ∧ 0 ≤ j ∧ j < 27 ∧ b i j = none) →
      ∃ p : Point, (b.generate_food r).1 = some p ∧
        (0 ≤ p.x ∧ p.x < 27 ∧ 0 ≤ p.y ∧ p.y < 27) ∧
        b p.x p.y = none ∧
        (b.generate_food r).2 p.x p.y = some Tie.Food ∧
        ∀ i j : Int, ¬ (i = p.x ∧ j = p.y) → (b.generate_food r).2 i j = b i j) := by
  constructor
  · intro h
    rcases b.generate_food_cases r with ⟨_, h1⟩ | ⟨p, hp, _⟩
    · exact h1
    · rw [(Board.emptyCells_eq_nil_iff b).mpr h] at hp
      cases hp
  · rintro ⟨i, j, hi0, hi1, hj0, hj1, hb⟩
    rcases b.generate_food_cases r with ⟨h1, _⟩ | ⟨p, hp, h1⟩
    · exact absurd hb ((Board.emptyCells_eq_nil_iff b).mp h1 i j hi0 hi1 hj0 hj1)
    · obtain ⟨h2, h3⟩ := (Board.mem_emptyCells b p).mp hp
      refine ⟨p, by rw [h1], h2, h3, ?_, ?_⟩
      · rw [h1]
        simp [Board.setValue_apply]
      · intro i1 j1 hne
        rw [h1]
        simp [Board.setValue_apply, hne]

/-- C13. A move onto food on a grid without an empty cell sets `is_finished` and
still completes: the snake is the new head followed by the whole old snake, and the new
head cell, the former food cell, is marked `Particle`. -/
theorem move_snake_board_full (g : Game) (r : Nat) (old_head : Point) (rest : List Point)
    (hs : g.snake = old_head :: rest)
    (hc : g.board.getValue (new_head g.direction old_head).x (new_head g.direction old_head).y
      = some Tie.Food)
    (hfull : ∀ i j : Int, 0 ≤ i → i < 27 → 0 ≤ j → j < 27 → g.board i j ≠ none) :
    ∃ g1, g.move_snake r = some g1 ∧ g1.is_finished = true ∧
      g1.snake = new_head g.direction old_head :: g.snake ∧
      g1.snake.length = g.snake.length + 1 ∧
      g1.board (new_head g.direction old_head).x (new_head g.direction old_head).y
        = some Tie.Particle := by
  have he : g.eat r = { g with is_finished := true } := by
    rcases g.eat_cases r with ⟨_, h1⟩ | ⟨p, hp, _⟩
    · exact h1
    · rw [(Board.emptyCells_eq_nil_iff g.board).mpr hfull] at hp
      cases hp
  refine ⟨_, Game.move_snake_food g r old_head rest hs hc, ?_, rfl, rfl, ?_⟩
  · show (g.eat r).is_finished = true
    rw [he]
  · show (((g.eat r).board.setValue _ _ none).setValue (new_head g.direction old_head).x
      (new_head g.direction old_head).y (some Tie.Particle))
      (new_head g.direction old_head).x (new_head g.direction old_head).y = some Tie.Particle
    simp [Board.setValue_apply]

theorem move_snake_board_full_witness :
    Game.fullBoard.snake = Point.mk 12 12 :: [Point.mk 13 12, Point.mk 14 12] ∧
    Game.fullBoard.board.getValue (new_head Game.fullBoard.direction (Point.mk 12 12)).x
      (new_head Game.fullBoard.direction (Point.mk 12 12)).y = some Tie.Food ∧
    (∀ i j : Int, 0 ≤ i → i < 27 → 0 ≤ j → j < 27 → Game.fullBoard.board i j ≠ none) ∧
    ∃ g1, Game.fullBoard.move_snake 4 = some g1 ∧ g1.is_finished = true ∧
      g1.snake = new_head Game.fullBoard.direction (Point.mk 12 12) :: Game.fullBoard.snake ∧
      g1.snake.length = Game.fullBoard.snake.length + 1 ∧
      g1.board (new_head Game.fullBoard.direction (Point.mk 12 12)).x
        (new_head Game.fullBoard.direction (Point.mk 12 12)).y = some Tie.Particle :=
  ⟨rfl, by decide,
    fun i j _ _ _ _ => by simp only [Game.fullBoard, Board.full]; split_ifs <;> simp,
    move_snake_board_full Game.fullBoard 4 (Point.mk 12 12) [Point.mk 13 12, Point.mk 14 12]
      rfl (by decide)
      (fun i j _ _ _ _ => by simp only [Game.fullBoard, Board.full]; split_ifs <;> simp)⟩

/-- C14, the defect. After the snake has eaten the food at `(3,3)` coming from
`(4,3)` and turned down, the cell ahead of its head is the cell `(3,4)` of its last
segment, which line 199 cleared when the snake grew. `move_snake` therefore sees an
empty cell and moves the head onto the tail cell instead of ending the game: the snake
becomes `[(3,4),(3,3),(4,3),(4,4)]` and `is_finished` stays false. -/
theorem move_onto_tail_not_collision :
    (Game.init.run toTail).map (fun g => (g.snake, g.direction, g.board 3 4))
      = some ([Point.mk 3 3, Point.mk 4 3, Point.mk 4 4, Point.mk 3 4], Direction.DOWN, none) ∧
    (Game.init.run toTail).map (fun g => (g.snake.head?.map (new_head g.direction),
        g.snake.getLast?, g.is_finished, g.is_paused))
      = some (some (Point.mk 3 4), some (Point.mk 3 4), false, false) ∧
    ((Game.init.run toTail).bind fun g => g.move_snake 0).map
        (fun g => (g.snake, g.is_finished))
      = some ([Point.mk 3 4, Point.mk 3 3, Point.mk 4 3, Point.mk 4 4], false) := by
  decide!

/-- C15. The initial game: snake `[(12,12),(13,12),(14,12)]`, heading `LEFT`, food
position `(3,3)`, both flags false, a grid whose only food cell is `(3,3)`, whose
`Particle` cells are exactly the three snake cells and whose other cells are empty. One
`move_snake` yields the snake `[(11,12),(12,12),(13,12)]`, not finished, with cell
`(14,12)` empty and cell `(11,12)` marked `Particle`. -/
theorem initial_game_scenario (r : Nat) :
    Game.init.snake = [Point.mk 12 12, Point.mk 13 12, Point.mk 14 12] ∧
    Game.init.direction = Direction.LEFT ∧
    Game.init.food = Point.mk 3 3 ∧
    Game.init.is_finished = false ∧
    Game.init.is_paused = false ∧
    (∀ i j : Int, Game.init.board i j = some Tie.Food ↔ (i = 3 ∧ j = 3)) ∧
    (∀ i j : Int, Game.init.board i j = some Tie.Particle ↔ Point.mk i j ∈ Game.init.snake) ∧
    (∀ i j : Int, ¬ (i = 3 ∧ j = 3) → Point.mk i j ∉ Game.init.snake →
      Game.init.board i j = none) ∧
    ∃ g1, Game.init.move_snake r = some g1 ∧
      g1.snake = [Point.mk 11 12, Point.mk 12 12, Point.mk 13 12] ∧
      g1.is_finished = false ∧
      g1.board 14 12 = none ∧
      g1.board 11 12 = some Tie.Particle := by
  refine ⟨rfl, rfl, rfl, rfl, rfl, ?_, ?_, ?_, ?_⟩
  · intro i j
    simp only [Game.init, Board.init]
    split_ifs with h1 h2 <;> simp [h1]
  · intro i j
    simp only [Game.init, Board.init, List.mem_cons, Point.mk.injEq, List.mem_singleton,
      List.not_mem_nil, or_false]
    split_ifs with h1 h2
    · obtain ⟨rfl, rfl⟩ := h1
      simp
    · obtain ⟨h3, rfl⟩ := h2
      simpa using h3
    · simp only [false_iff, reduceCtorEq]
      intro h3
      apply h2
      rcases h3 with ⟨a, b⟩ | ⟨a, b⟩ | ⟨a, b⟩ <;> simp [a, b]
  · intro i j h1 h2
    simp only [Game.init, Board.init, List.mem_cons, Point.mk.injEq, List.mem_singleton,
      List.not_mem_nil, or_false] at h2 ⊢
    rw [if_neg h1, if_neg]
    rintro ⟨h3, rfl⟩
    apply h2
    rcases h3 with rfl | rfl | rfl <;> simp
  · have hc : Game.init.board.getValue (new_head Game.init.direction (Point.mk 12 12)).x
        (new_head Game.init.direction (Point.mk 12 12)).y = none := by decide
    refine ⟨_, Game.move_snake_empty Game.init r (Point.mk 12 12)
      [Point.mk 13 12, Point.mk 14 12] rfl hc, ?_, rfl, ?_, ?_⟩
    · decide
    · decide
    · decide

theorem Game.move_snake_isSome (g : Game) (r : Nat) (hne : g.snake ≠ []) :
    ∃ g1, g.move_snake r = some g1 := by
  obtain ⟨old_head, rest, hs⟩ := List.exists_cons_of_ne_nil hne
  rcases hc : g.board.getValue (new_head g.direction old_head).x (new_head g.direction old_head).y
    with _ | tie
  · exact ⟨_, Game.move_snake_empty g r old_head rest hs hc⟩
  · cases tie
    · exact ⟨_, Game.move_snake_food g r old_head rest hs hc⟩
    · exact ⟨_, Game.move_snake_particle g r old_head rest hs hc⟩

/-- C16. In every reachable state the snake has at least one segment, so the
assertion at the start of `move_snake` holds and the call returns a state, whatever the
random draw. -/
theorem snake_nonempty (g : Game) (h : Reachable g) :
    1 ≤ g.snake.length ∧ g.snake ≠ [] ∧ ∀ r : Nat, ∃ g1, g.move_snake r = some g1 :=
  ⟨List.length_pos.mpr (Inv.of_reachable h).nonempty, (Inv.of_reachable h).nonempty,
    fun r => Game.move_snake_isSome g r (Inv.of_reachable h).nonempty⟩

theorem snake_nonempty_witness :
    Reachable Game.init ∧ 1 ≤ Game.init.snake.length ∧ Game.init.snake ≠ [] ∧
      ∀ r : Nat, ∃ g1, Game.init.move_snake r = some g1 :=
  ⟨Reachable.init, snake_nonempty Game.init Reachable.init⟩

/-- C18. In every reachable state every snake position and the food position have
both coordinates in `[0, 26]` (they are integers by the type of `Point` here), so the
cells that `move_snake` and `generate_food` read and write are inside the array: the new
head cell, the tail cell, and the cell chosen for the food. -/
theorem positions_in_range (g : Game) (h : Reachable g) :
    (∀ p ∈ g.snake, 0 ≤ p.x ∧ p.x ≤ 26 ∧ 0 ≤ p.y ∧ p.y ≤ 26) ∧
    (0 ≤ g.food.x ∧ g.food.x ≤ 26 ∧ 0 ≤ g.food.y ∧ g.food.y ≤ 26) ∧
    (∀ old_head ∈ g.snake.head?, InRange (new_head g.direction old_head)) ∧
    (∀ tail ∈ g.snake.getLast?, InRange tail) ∧
    (∀ (r : Nat) (p : Point), (g.board.generate_food r).1 = some p → InRange p) := by
  have hi := Inv.of_reachable h
  have key : ∀ p : Point, InRange p → 0 ≤ p.x ∧ p.x ≤ 26 ∧ 0 ≤ p.y ∧ p.y ≤ 26 := by
    intro p hp
    simp only [InRange, MATRIX_SIZE, Nat.cast_ofNat] at hp
    omega
  refine ⟨fun p hp => key p (hi.in_range p hp), key _ hi.food_in_range, ?_, ?_, ?_⟩
  · intro old_head ho
    exact new_head_inRange _ _ (hi.in_range old_head (List.mem_of_mem_head? ho))
  · intro tail ht
    exact hi.in_range tail (List.mem_of_mem_getLast? ht)
  · intro r p hp
    rcases g.board.generate_food_cases r with ⟨_, h1⟩ | ⟨q, hq, h1⟩
    · rw [h1] at hp
      cases hp
    · rw [h1] at hp
      cases hp
      have h2 := ((Board.mem_emptyCells g.board p).mp hq).1
      simpa [InRange, MATRIX_SIZE] using h2

theorem positions_in_range_witness :
    Reachable Game.init ∧
    ((∀ p ∈ Game.init.snake, 0 ≤ p.x ∧ p.x ≤ 26 ∧ 0 ≤ p.y ∧ p.y ≤ 26) ∧
    (0 ≤ Game.init.food.x ∧ Game.init.food.x ≤ 26 ∧ 0 ≤ Game.init.food.y ∧
      Game.init.food.y ≤ 26) ∧
    (∀ old_head ∈ Game.init.snake.head?, InRange (new_head Game.init.direction old_head)) ∧
    (∀ tail ∈ Game.init.snake.getLast?, InRange tail) ∧
    (∀ (r : Nat) (p : Point), (Game.init.board.generate_food r).1 = some p → InRange p)) :=
  ⟨Reachable.init, positions_in_range Game.init Reachable.init⟩

/-- C19. In every reachable state every grid cell marked `Particle` is a position of
the snake, and every position of the snake other than its last element is marked
`Particle` in the grid. -/
theorem body_cells_marked (g : Game) (h : Reachable g) :
    (∀ i j : Int, g.board i j = some Tie.Particle → Point.mk i j ∈ g.snake) ∧
    (∀ p ∈ g.snake.dropLast, g.board p.x p.y = some Tie.Particle) :=
  ⟨(Inv.of_reachable h).sound, (Inv.of_reachable h).body⟩

theorem body_cells_marked_witness :
    Reachable Game.init ∧
    (∀ i j : Int, Game.init.board i j = some Tie.Particle → Point.mk i j ∈ Game.init.snake) ∧
    (∀ p ∈ Game.init.snake.dropLast, Game.init.board p.x p.y = some Tie.Particle) :=
  ⟨Reachable.init, body_cells_marked Game.init Reachable.init⟩

theorem new_head_neighbour (d : Direction) (h : Point) : Neighbour (new_head d h) h := by
  cases d <;> simp only [new_head, Neighbour, MATRIX_SIZE, Nat.cast_ofNat, true_and] <;>
    split_ifs <;> omega

theorem Linked.cons {p : Point} {l : List Point} (hl : Linked l)
    (hp : ∀ q ∈ l.head?, Neighbour p q) : Linked (p :: l) := by
  cases l with
  | nil => trivial
  | cons q rest => exact ⟨hp q rfl, hl⟩

theorem Linked.tail {p : Point} {l : List Point} (h : Linked (p :: l)) : Linked l := by
  cases l with
  | nil => trivial
  | cons q rest => exact h.2

theorem Linked.dropLast {l : List Point} (h : Linked l) : Linked l.dropLast := by
  induction l with
  | nil => trivial
  | cons p l ih =>
    cases l with
    | nil => trivial
    | cons q rest =>
      rw [List.dropLast_cons₂]
      refine Linked.cons (ih h.2) ?_
      intro q1 hq1
      cases rest with
      | nil => cases hq1
      | cons q2 rest2 =>
        rw [List.dropLast_cons₂] at hq1
        cases hq1
        exact h.1

theorem Linked.getElem {l : List Point} (h : Linked l) (i : Nat) (p q : Point)
    (hp : l[i]? = some p) (hq : l[i + 1]? = some q) : Neighbour p q := by
  induction l generalizing i with
  | nil => cases hp
  | cons a l ih =>
    cases l with
    | nil => cases hq
    | cons b rest =>
      cases i with
      | zero =>
        simp only [List.getElem?_cons_zero, List.getElem?_cons_succ, Option.some.injEq,
          zero_add] at hp hq
        rw [← hp, ← hq]
        exact h.1
      | succ k =>
        rw [List.getElem?_cons_succ] at hp hq
        exact ih h.2 k hp hq

theorem linked_init : Linked Game.init.snake := by
  simp only [Game.init, Linked, Neighbour, MATRIX_SIZE]
  decide

theorem Game.eat_snake (g : Game) (r : Nat) : (g.eat r).snake = g.snake := by
  rcases g.eat_cases r with ⟨_, h⟩ | ⟨p, _, h⟩ <;> rw [h]

theorem Game.eat_direction (g : Game) (r : Nat) : (g.eat r).direction = g.direction := by
  rcases g.eat_cases r with ⟨_, h⟩ | ⟨p, _, h⟩ <;> rw [h]

theorem linked_move_snake {g g1 : Game} (h : Linked g.snake) (r : Nat)
    (hm : g.move_snake r = some g1) : Linked g1.snake := by
  cases hs : g.snake with
  | nil => simp [Game.move_snake, hs] at hm
  | cons old_head rest =>
    have hhead : ∀ l : List Point, (∀ q ∈ l.head?, q = old_head) →
        ∀ q ∈ l.head?, Neighbour (new_head g.direction old_head) q := by
      intro l hl q hq
      rw [hl q hq]
      exact new_head_neighbour _ _
    rcases hc : g.board.getValue (new_head g.direction old_head).x
      (new_head g.direction old_head).y with _ | tie
    · rw [Game.move_snake_empty g r old_head rest hs hc] at hm
      cases hm
      show Linked (new_head g.direction old_head :: g.snake.dropLast)
      refine Linked.cons h.dropLast (hhead _ ?_)
      intro q hq
      rw [hs] at hq
      cases rest with
      | nil => cases hq
      | cons b rest2 =>
        rw [List.dropLast_cons₂] at hq
        cases hq
        rfl
    · cases tie
      · rw [Game.move_snake_food g r old_head rest hs hc] at hm
        cases hm
        show Linked (new_head g.direction old_head :: g.snake)
        refine Linked.cons h (hhead _ ?_)
        intro q hq
        rw [hs] at hq
        cases hq
        rfl
      · rw [Game.move_snake_particle g r old_head rest hs hc] at hm
        cases hm
        exact h

theorem linked_of_reachable {g : Game} (h : Reachable g) : Linked g.snake := by
  induction h with
  | init => exact linked_init
  | @turn g pressed _ ih =>
    have h1 : (g.change_direction pressed).snake = g.snake := by
      unfold Game.change_direction
      split <;> split_ifs <;> rfl
    rw [h1]
    exact ih
  | pause _ ih => exact ih
  | move r _ hm ih => exact linked_move_snake ih r hm

/-- C20. In every reachable state every two consecutive elements of the snake are
toroidal neighbours: they agree in one coordinate and differ by exactly one modulo 27
in the other. -/
theorem snake_linked (g : Game) (h : Reachable g) (i : Nat) (p q : Point)
    (hp : g.snake[i]? = some p) (hq : g.snake[i + 1]? = some q) :
    (p.x = q.x ∧ ((p.y - q.y) % 27 = 1 ∨ (q.y - p.y) % 27 = 1)) ∨
    (p.y = q.y ∧ ((p.x - q.x) % 27 = 1 ∨ (q.x - p.x) % 27 = 1)) := by
  have h1 := (linked_of_reachable h).getElem i p q hp hq
  simpa [Neighbour, MATRIX_SIZE] using h1

theorem snake_linked_witness :
    Reachable Game.init ∧ Game.init.snake[0]? = some (Point.mk 12 12) ∧
    Game.init.snake[0 + 1]? = some (Point.mk 13 12) ∧
    (((Point.mk 12 12).x = (Point.mk 13 12).x ∧
        (((Point.mk 12 12).y - (Point.mk 13 12).y) % 27 = 1 ∨
          ((Point.mk 13 12).y - (Point.mk 12 12).y) % 27 = 1)) ∨
      ((Point.mk 12 12).y = (Point.mk 13 12).y ∧
        (((Point.mk 12 12).x - (Point.mk 13 12).x) % 27 = 1 ∨
          ((Point.mk 13 12).x - (Point.mk 12 12).x) % 27 = 1))) :=
  ⟨Reachable.init, rfl, rfl,
    snake_linked Game.init Reachable.init 0 (Point.mk 12 12) (Point.mk 13 12) rfl rfl⟩

theorem Game.change_direction_frame (g : Game) (pressed : Direction) :
    (g.change_direction pressed).snake = g.snake ∧
    (g.change_direction pressed).is_finished = g.is_finished ∧
    ((g.change_direction pressed).direction = g.direction ∨
      (g.change_direction pressed).direction.orthogonal g.direction) := by
  obtain ⟨board, food, snake, direction, fin, paused⟩ := g
  cases direction <;> cases pressed <;>
    simp [Game.change_direction, Direction.orthogonal, Direction.horizontal]

theorem new_head_ne_second (d d0 : Direction) (s : Point)
    (hd : d = d0 ∨ d.orthogonal d0) : new_head d (new_head d0 s) ≠ s := by
  intro h
  have hxy : (new_head d (new_head d0 s)).x = s.x ∧ (new_head d (new_head d0 s)).y = s.y :=
    ⟨congrArg Point.x h, congrArg Point.y h⟩
  cases d <;> cases d0 <;>
    first
    | (exfalso
       simp [Direction.orthogonal, Direction.horizontal] at hd
       done)
    | (simp only [new_head, MATRIX_SIZE, Nat.cast_ofNat] at hxy
       split_ifs at hxy <;> omega)

/-- The head is one step from the second segment in a heading `d0` that is the
current heading, or, if a turn was made since the last move, orthogonal to it. -/
theorem ReachableOneTurn.head_from_second {g : Game} {turned : Bool}
    (h : ReachableOneTurn g turned) (hf : g.is_finished = false) (hd s : Point)
    (rest : List Point) (hs : g.snake = hd :: s :: rest) :
    ∃ d0, hd = new_head d0 s ∧
      (g.direction = d0 ∨ (turned = true ∧ g.direction.orthogonal d0)) := by
  induction h generalizing hd s rest with
  | init =>
    simp only [Game.init, List.cons.injEq] at hs
    obtain ⟨rfl, rfl, _⟩ := hs
    exact ⟨Direction.LEFT, by decide, Or.inl rfl⟩
  | @turn g pressed _ ih =>
    obtain ⟨h1, h2, h3⟩ := g.change_direction_frame pressed
    rw [h1] at hs
    rw [h2] at hf
    obtain ⟨d0, h4, h5⟩ := ih hf hd s rest hs
    have h6 : g.direction = d0 := by
      rcases h5 with h5 | ⟨h5, _⟩
      · exact h5
      · cases h5
    refine ⟨d0, h4, ?_⟩
    rcases h3 with h3 | h3
    · exact Or.inl (h3.trans h6)
    · exact Or.inr ⟨rfl, h6 ▸ h3⟩
  | @move g g1 turned r _ hm _ =>
    cases hg : g.snake with
    | nil => simp [Game.move_snake, hg] at hm
    | cons old_head tl =>
      rcases hc : g.board.getValue (new_head g.direction old_head).x
        (new_head g.direction old_head).y with _ | tie
      · rw [Game.move_snake_empty g r old_head tl hg hc] at hm
        cases hm
        have h1 : new_head g.direction old_head :: g.snake.dropLast = hd :: s :: rest := hs
        rw [hg] at h1
        cases tl with
        | nil => simp at h1
        | cons b tl2 =>
          rw [List.dropLast_cons₂] at h1
          simp only [List.cons.injEq] at h1
          obtain ⟨rfl, rfl, _⟩ := h1
          exact ⟨g.direction, rfl, Or.inl rfl⟩
      · cases tie
        · rw [Game.move_snake_food g r old_head tl hg hc] at hm
          cases hm
          have h1 : new_head g.direction old_head :: g.snake = hd :: s :: rest := hs
          rw [hg] at h1
          simp only [List.cons.injEq] at h1
          obtain ⟨rfl, rfl, _⟩ := h1
          exact ⟨g.direction, rfl, Or.inl (g.eat_direction r)⟩
        · rw [Game.move_snake_particle g r old_head tl hg hc] at hm
          cases hm
          cases hf

/-- What the orthogonal-only rule does achieve: as long as at most one
`change_direction` call has been made since the last `move_snake` call, in a game
that is not finished the cell one step ahead of the head in the current heading is not
the position of the second segment. -/
theorem no_reversal_one_turn (g : Game) (turned : Bool) (h : ReachableOneTurn g turned)
    (hf : g.is_finished = false) (hd s : Point) (rest : List Point)
    (hs : g.snake = hd :: s :: rest) :
    new_head g.direction hd ≠ s := by
  obtain ⟨d0, h1, h2⟩ := h.head_from_second hf hd s rest hs
  rw [h1]
  apply new_head_ne_second
  rcases h2 with h2 | ⟨_, h2⟩
  · exact Or.inl h2
  · exact Or.inr h2

theorem no_reversal_one_turn_witness :
    ReachableOneTurn (Game.init.change_direction Direction.UP) true ∧
    (Game.init.change_direction Direction.UP).is_finished = false ∧
    (Game.init.change_direction Direction.UP).snake
      = Point.mk 12 12 :: Point.mk 13 12 :: [Point.mk 14 12] ∧
    new_head (Game.init.change_direction Direction.UP).direction (Point.mk 12 12)
      ≠ Point.mk 13 12 :=
  ⟨ReachableOneTurn.turn Direction.UP ReachableOneTurn.init, rfl, rfl,
    no_reversal_one_turn (Game.init.change_direction Direction.UP) true
      (ReachableOneTurn.turn Direction.UP ReachableOneTurn.init) rfl
      (Point.mk 12 12) (Point.mk 13 12) [Point.mk 14 12] rfl⟩

theorem MainLoop.poll_reachable {l : MainLoop} (h : Reachable l.game) (event : Event) :
    Reachable (l.poll event).game := by
  cases event with
  | quit => exact h
  | key pressed => exact Reachable.turn pressed h
  | pauseKey => exact Reachable.pause h
  | other => exact h

theorem MainLoop.foldl_poll_reachable (events : List Event) {l : MainLoop}
    (h : Reachable l.game) : Reachable (events.foldl MainLoop.poll l).game := by
  induction events generalizing l with
  | nil => exact h
  | cons e es ih => exact ih (MainLoop.poll_reachable h e)

theorem MainLoop.frame_reachable {l l1 : MainLoop} (h : Reachable l.game)
    (events : List Event) (r : Nat) (hf : l.frame events r = some l1) :
    Reachable l1.game := by
  have h1 := MainLoop.foldl_poll_reachable events h
  unfold MainLoop.frame at hf
  cases hg : (events.foldl MainLoop.poll l).game.tick r with
  | none => simp [hg] at hf
  | some g =>
    simp only [hg, Option.map_some', Option.some.injEq] at hf
    subst hf
    unfold Game.tick at hg
    split_ifs at hg
    · exact Reachable.move r h1 hg
    · cases hg
      exact h1

/-- Every state of the game that the main loop reaches is a reachable state. -/
theorem MainLoop.run_reachable {l l1 : MainLoop} (h : Reachable l.game)
    (fs : List (List Event × Nat)) (hr : l.run fs = some l1) : Reachable l1.game := by
  induction fs generalizing l with
  | nil =>
    cases hr
    exact h
  | cons f fs ih =>
    simp only [MainLoop.run] at hr
    split_ifs at hr
    · cases hr
      exact h
    · cases hf : l.frame f.1 f.2 with
      | none => simp [hf] at hr
      | some l2 =>
        rw [hf] at hr
        exact ih (MainLoop.frame_reachable h f.1 f.2 hf) hr

/-- C9, the defect. The main loop does not stop advancing a finished game: it
reads `is_finished` only while polling an event (line 244) and the advance of lines
285-287 is guarded by `is_paused` alone. After the iterations `framesToCollision` the
snake `[(4,3),(4,2),(3,2),(3,3)]` has run into its last segment: `is_finished` is
true and the loop has not quit. With no event the next iteration calls `move_snake`
again and the loop still does not quit; with the down key it sets `quit`, and the
`move_snake` call of that same iteration moves the snake of the finished game to
`[(4,4),(4,3),(4,2),(3,2)]` and empties the grid cell `(3,3)`. -/
theorem finished_game_still_advanced :
    (MainLoop.init.run framesToCollision).map
        (fun l => (l.game.snake, l.game.direction, l.game.board 3 3))
      = some ([Point.mk 4 3, Point.mk 4 2, Point.mk 3 2, Point.mk 3 3], Direction.LEFT,
          some Tie.Particle) ∧
    (MainLoop.init.run framesToCollision).map
        (fun l => (l.game.is_finished, l.game.is_paused, l.quit))
      = some (true, false, false) ∧
    (MainLoop.init.run (framesToCollision ++ [([], 0)])).map
        (fun l => (l.game.snake, l.game.is_finished, l.quit))
      = some ([Point.mk 4 3, Point.mk 4 2, Point.mk 3 2, Point.mk 3 3], true, false) ∧
    (MainLoop.init.run (framesToCollision ++ [([Event.key Direction.DOWN], 0)])).map
        (fun l => (l.game.snake, l.game.board 3 3, l.game.is_finished, l.quit))
      = some ([Point.mk 4 4, Point.mk 4 3, Point.mk 4 2, Point.mk 3 2], none, true, true) := by
  decide!

/-- C17, the defect. `change_direction` compares the request with the current
heading, not with the heading of the last move, and the main loop polls every pending
key before it moves. With the up key and the right key pending in the first iteration
both turns are accepted: the heading is then `RIGHT`, the cell ahead of the head
`(12,12)` is the second segment `(13,12)`, and the `move_snake` call of that iteration
ends the game by running the head into it. -/
theorem double_turn_in_one_frame :
    (fun l : MainLoop => (l.game.snake, l.game.direction,
        l.game.snake.head?.map (new_head l.game.direction), l.game.snake[1]?))
      ([Event.key Direction.UP, Event.key Direction.RIGHT].foldl MainLoop.poll MainLoop.init)
      = ([Point.mk 12 12, Point.mk 13 12, Point.mk 14 12], Direction.RIGHT,
          some (Point.mk 13 12), some (Point.mk 13 12)) ∧
    (MainLoop.init.run [([Event.key Direction.UP, Event.key Direction.RIGHT], 0)]).map
        (fun l => (l.game.snake, l.game.direction, l.game.is_finished))
      = some ([Point.mk 12 12, Point.mk 13 12, Point.mk 14 12], Direction.RIGHT, true) ∧
    (MainLoop.init.run [([], 0), ([Event.key Direction.UP, Event.key Direction.RIGHT], 0)]).map
        (fun l => (l.game.snake, l.game.direction, l.game.is_finished))
      = some ([Point.mk 11 12, Point.mk 12 12, Point.mk 13 12], Direction.RIGHT, true) := by
  decide!

end Csnake
